import Mathlib

/-!
Verification of the simple-whip-client WHIP signaling code
(src/whip-client.c) against its natural-language specification.

The C code is shallowly embedded: C strings become `List Char`,
glib/libsoup string helpers (`g_strsplit`, `strstr`, `strlcat`,
`strcasecmp`, `atoi`, `SoupURI`) are modelled as executable Lean
functions with the same observable behaviour, and the stateful
routines (`whip_parse_offer`, `whip_send_candidates`,
`whip_candidate`, `whip_connect`, `whip_disconnect`,
`whip_handle_signal`, `whip_http_send`) become pure functions over
explicit state records.
-/

/-- Characters of a string literal, the representation used for C strings. -/
def chars (s : String) : List Char := s.data

/-- Model of C `strcasecmp(a, b) == 0` (ASCII case-insensitive equality). -/
def strcaseEq (a b : List Char) : Bool :=
  a.map Char.toLower == b.map Char.toLower

/-- Model of C `strstr(hay, pat) != NULL`: `pat` occurs inside `hay`. -/
def strstrB (pat : List Char) : List Char → Bool
  | [] => pat.isPrefixOf []
  | h :: t => pat.isPrefixOf (h :: t) || strstrB pat t

/-- Model of glib `g_strsplit(s, sep, -1)` for a one-character separator:
splits keeping empty pieces; the empty string yields an empty vector. -/
def splitKeep (sep : Char) : List Char → List (List Char)
  | [] => [[]]
  | c :: t =>
    if c = sep then [] :: splitKeep sep t
    else
      match splitKeep sep t with
      | [] => [[c]]
      | h :: r => (c :: h) :: r

/-- glib `g_strsplit`: as `splitKeep`, except `g_strsplit("")` is empty. -/
def gStrsplit (sep : Char) (l : List Char) : List (List Char) :=
  if l = [] then [] else splitKeep sep l

/-- Truncation at the first carriage return: models
`cr = strchr(line, '\r'); if(cr) *cr = '\0';` in `whip_parse_offer`. -/
def truncAtCr (l : List Char) : List Char :=
  l.takeWhile (fun c => c != '\r')

/-- Split a line's tail at the first colon: models
`semicolon = strchr(line, ':')` plus taking key/value around it. -/
def splitColon : List Char → Option (List Char × List Char)
  | [] => none
  | c :: t =>
    if c = ':' then some ([], t)
    else (splitColon t).map (fun kv => (c :: kv.1, kv.2))

/-- Model of C `atoi`: leading whitespace, optional sign, leading digits. -/
def atoiDigits (l : List Char) : Nat :=
  (l.takeWhile Char.isDigit).foldl (fun a c => a * 10 + (c.toNat - 48)) 0

/-- Model of C `atoi` on glibc: `(int)strtol(s, NULL, 10)`. Leading
whitespace and an optional sign are consumed; the digit value
saturates at the `long` range exactly as `strtol` does, and the
`long` result is then truncated to a 32-bit `int` with wraparound
(so e.g. "4294967297" evaluates to 1). -/
def atoi (l : List Char) : Int :=
  let l := l.dropWhile (fun c =>
    c == ' ' || c == '\t' || c == '\n' || c == '\x0b' || c == '\x0c' || c == '\r')
  let longVal : Int :=
    match l with
    | '-' :: t => -(Int.ofNat (atoiDigits t))
    | '+' :: t => Int.ofNat (atoiDigits t)
    | _ => Int.ofNat (atoiDigits l)
  let clamped : Int :=
    if longVal > 9223372036854775807 then 9223372036854775807
    else if longVal < -9223372036854775808 then -9223372036854775808
    else longVal
  let m := clamped % 4294967296
  if m < 2147483648 then m else m - 4294967296

/-- The three extracted SDP fields: globals `ice_ufrag`, `ice_pwd`,
`first_mid` of whip-client.c. -/
structure IceState where
  ice_ufrag : Option (List Char)
  ice_pwd : Option (List Char)
  first_mid : Option (List Char)
deriving DecidableEq, Repr

/-- Scan state of `whip_parse_offer`: the local flags `mline`, `done`,
`success` plus the globals being written. -/
structure ParseCtx where
  mline : Bool
  done : Bool
  success : Bool
  st : IceState
deriving DecidableEq, Repr

/-- Session-level `a=` attribute handling of `whip_parse_offer`
(the `!mline` branch, case 'a'): capture `ice-ufrag` / `ice-pwd`
when a colon is present and the value is non-empty. -/
def sessionAttr (rest : List Char) (c : ParseCtx) : ParseCtx :=
  match splitColon rest with
  | some (k, v) =>
    if v = [] then c
    else if strcaseEq k (chars "ice-ufrag") then
      { c with st := { c.st with ice_ufrag := some v } }
    else if strcaseEq k (chars "ice-pwd") then
      { c with st := { c.st with ice_pwd := some v } }
    else c
  | none => c

/-- Media-level `a=` attribute handling of `whip_parse_offer`
(the `mline` branch, case 'a'): additionally captures `mid`. -/
def mediaAttr (rest : List Char) (c : ParseCtx) : ParseCtx :=
  match splitColon rest with
  | some (k, v) =>
    if v = [] then c
    else if strcaseEq k (chars "ice-ufrag") then
      { c with st := { c.st with ice_ufrag := some v } }
    else if strcaseEq k (chars "ice-pwd") then
      { c with st := { c.st with ice_pwd := some v } }
    else if strcaseEq k (chars "mid") then
      { c with st := { c.st with first_mid := some v } }
    else c
  | none => c

/-- One loop iteration of `whip_parse_offer` on the already
CR-truncated line: empty lines are skipped, lines shorter than 3
characters or with a second character other than '=' abort with
failure, otherwise the line is dispatched on its first character. -/
def stepTrunc (t : List Char) (c : ParseCtx) : ParseCtx :=
  if t.isEmpty then c
  else if t.length < 3 then { c with success := false }
  else if ¬ (t.get? 1 = some '=') then { c with success := false }
  else if c.mline then
    match t.head? with
    | some 'a' => mediaAttr (t.drop 2) c
    | some 'm' => { c with done := true }
    | _ => c
  else
    match t.head? with
    | some 'a' => sessionAttr (t.drop 2) c
    | some 'm' => { c with mline := true }
    | _ => c

/-- One loop iteration of `whip_parse_offer` on a raw line. -/
def stepLine (l : List Char) (c : ParseCtx) : ParseCtx :=
  stepTrunc (truncAtCr l) c

/-- The scan loop of `whip_parse_offer`:
`while(!done && success && (line = parts[index]) != NULL)`. -/
def parseLines : List (List Char) → ParseCtx → ParseCtx
  | [], c => c
  | l :: ls, c =>
    if c.done || !c.success then c else parseLines ls (stepLine l c)

/-- `whip_parse_offer`: split the SDP text on newlines and scan;
returns the final scan state (success flag plus the globals). -/
def whip_parse_offer (ice : IceState) (sdp : List Char) : ParseCtx :=
  parseLines (gStrsplit '\n' sdp) ⟨false, false, true, ice⟩

example : (whip_parse_offer ⟨none, none, none⟩
    (chars "v=0\na=ice-ufrag:u1\nm=audio 9 RTP/AVP 0\na=mid:0\n")).st
    = ⟨some (chars "u1"), none, some (chars "0")⟩ := by decide

example : (whip_parse_offer ⟨none, none, none⟩ (chars "\n")).success = true := by
  decide

example : (whip_parse_offer ⟨none, none, none⟩
    (chars "a=ice-ufrag:x\nZZ")).st.ice_ufrag = some (chars "x") := by decide

/-- The `enum whip_state` values, with their C numeric codes. -/
inductive WhipState
  | DISCONNECTED
  | CONNECTING
  | CONNECTION_ERROR
  | CONNECTED
  | PUBLISHING
  | OFFER_PREPARED
  | STARTED
  | API_ERROR
  | ERROR
deriving DecidableEq, Repr

/-- Numeric value of each `enum whip_state` member. -/
def WhipState.code : WhipState → Nat
  | .DISCONNECTED => 0
  | .CONNECTING => 1
  | .CONNECTION_ERROR => 2
  | .CONNECTED => 3
  | .PUBLISHING => 4
  | .OFFER_PREPARED => 5
  | .STARTED => 6
  | .API_ERROR => 7
  | .ERROR => 8

/-- A parsed URL, as held by a libsoup `SoupURI`. -/
structure Url where
  scheme : List Char
  host : List Char
  path : List Char
  query : Option (List Char)
deriving DecidableEq, Repr

/-- `soup_uri_to_string(uri, FALSE)`: scheme, authority, path, query. -/
def urlToString (u : Url) : List Char :=
  u.scheme ++ chars "://" ++ u.host ++ u.path ++
    (match u.query with
     | none => []
     | some q => '?' :: q)

/-- Replace the last element of a list (the last path segment in the
`g_strsplit`/`g_strjoinv` loop of `whip_connect`). -/
def replaceLast (x : List Char) : List (List Char) → List (List Char)
  | [] => []
  | [_] => [x]
  | h :: t => h :: replaceLast x t

/-- `g_strjoinv("/", parts)`. -/
def joinSlash : List (List Char) → List Char
  | [] => []
  | [h] => h
  | h :: t => h ++ '/' :: joinSlash t

/-- Resolution of the `Location` header in `whip_connect` (lines
763-793): an absolute URL (any value containing "http") is used
as-is; an absolute path replaces the server URL's path; otherwise the
last path segment of the server URL is replaced by the location. The
query of the server URL is always cleared. -/
def resolveLocation (serverUrl : Url) (loc : List Char) : List Char :=
  if strstrB (chars "http") loc then loc
  else
    let u := { serverUrl with query := none }
    if loc.head? = some '/' then urlToString { u with path := loc }
    else
      urlToString
        { u with path := joinSlash (replaceLast loc (gStrsplit '/' u.path)) }

/-- Resolution of the `Location` header inside `whip_http_send`
(lines 924-936): an absolute URL (any value containing "http") is
used as-is; otherwise the location becomes the path of the server
URL verbatim (`soup_uri_set_path` copies the string unchanged),
with the query cleared. -/
def resolveRedirect (serverUrl : Url) (loc : List Char) : List Char :=
  if strstrB (chars "http") loc then loc
  else urlToString { serverUrl with query := none, path := loc }

/-- One HTTP response, as observed by `whip_http_send`. -/
structure HttpResp where
  status : Nat
  location : Option (List Char)
deriving DecidableEq, Repr

/-- `whip_http_send`: the request/redirect loop, driven by an oracle
list of responses (one per request actually sent). Returns the final
status together with the sequence of URLs the requests targeted.
On 301/307 the redirect counter is incremented and capped at 10
(`return 0` past the cap), the `Location` header is resolved with
`resolveRedirect` and the request is retried; any other status is
returned as-is. A missing `Location` on a redirect would crash the C
client (NULL `strstr`); the oracle is assumed to provide one, and the
model returns status 0 there. -/
def whip_http_send (serverUrl : Url) (url : List Char) :
    Option (List Char) → Nat → List HttpResp → Nat × List (List Char)
  | _, _, [] => (0, [])
  | redirectUrl, redirects, r :: rs =>
    let target := redirectUrl.getD url
    if r.status = 301 || r.status = 307 then
      if redirects + 1 > 10 then (0, [target])
      else
        match r.location with
        | none => (0, [target])
        | some loc =>
          let ru := resolveRedirect serverUrl loc
          let res := whip_http_send serverUrl url (some ru) (redirects + 1) rs
          (res.1, target :: res.2)
    else (r.status, [target])

/-- The `sendrecv` → `sendonly` in-place rewriting loop of
`whip_connect` (lines 710-713). Both words have length 8 and
`sendonly` cannot recombine with its context into `sendrecv`, so the
restart-from-the-beginning C loop equals a left-to-right scan. -/
def sendrecvToSendonly : List Char → List Char
  | 's' :: 'e' :: 'n' :: 'd' :: 'r' :: 'e' :: 'c' :: 'v' :: t =>
    chars "sendonly" ++ sendrecvToSendonly t
  | c :: t => c :: sendrecvToSendonly t
  | [] => []

/-- The API-side globals of whip-client.c written by `whip_connect`. -/
structure Globals where
  state : WhipState
  resource_url : Option (List Char)
  latest_etag : Option (List Char)
  ice : IceState
deriving DecidableEq, Repr

/-- The POST response, as observed by `whip_connect`. -/
structure ConnectResp where
  status : Nat
  contentType : Option (List Char)
  body : Option (List Char)
  etag : Option (List Char)
  location : Option (List Char)
deriving DecidableEq, Repr

/-- Outcome of `whip_connect`: either a call to `whip_disconnect`
with the given reason, or normal completion; both carry the globals
as left behind. -/
inductive ConnectOutcome
  | bail (reason : List Char) (g : Globals)
  | ok (g : Globals)
deriving DecidableEq, Repr

/-- `whip_connect`, on the trickle path (`no_trickle == FALSE`, the
mode every claim exercises; the candidates-in-SDP block at lines
673-708 is skipped in that mode). The offer text first has
`sendrecv` rewritten to `sendonly`, then `whip_parse_offer` runs on
it (its writes to the ICE globals persist even on failure); then the
POST response is checked: status must be 201, content type must be
`application/sdp` (case-insensitive), the body must start with
`v=0\r\n`; the ETag header, when present, is stored verbatim in
`latest_etag`; the `Location` header, when present, is resolved with
`resolveLocation` into `resource_url`. No assignment to the `state`
global occurs anywhere in `whip_connect`. -/
def whip_connect (g : Globals) (serverUrl : Url) (sdpOffer : List Char)
    (resp : ConnectResp) : ConnectOutcome :=
  let sdp := sendrecvToSendonly sdpOffer
  let pr := whip_parse_offer g.ice sdp
  let g1 := { g with ice := pr.st }
  if pr.success = false then .bail (chars "SDP error") g1
  else if resp.status ≠ 201 then .bail (chars "HTTP error") g1
  else
    match resp.contentType with
    | none => .bail (chars "HTTP error") g1
    | some ct =>
      if ¬ strcaseEq ct (chars "application/sdp") then
        .bail (chars "HTTP error") g1
      else
        match resp.body with
        | none => .bail (chars "SDP error") g1
        | some answer =>
          if ¬ (chars "v=0\r\n").isPrefixOf answer then
            .bail (chars "SDP error") g1
          else
            let g2 :=
              match resp.etag with
              | none => g1
              | some e => { g1 with latest_etag := some e }
            let g3 :=
              match resp.location with
              | none => g2
              | some loc =>
                { g2 with resource_url := some (resolveLocation serverUrl loc) }
            .ok g3

/-- `g_strlcat(dst, src, 4096)`: append, truncated to 4095 characters. -/
def strlcat (dst src : List Char) : List Char :=
  (dst ++ src).take 4095

/-- The globals read by `whip_send_candidates`, plus the queue. -/
structure FlushEnv where
  queue : List (List Char)
  resource_url : Option (List Char)
  ice_ufrag : List Char
  ice_pwd : List Char
  first_mid : Option (List Char)
  audioPipe : Bool
deriving DecidableEq, Repr

/-- The candidate-appending loop of `whip_send_candidates`
(lines 535-542): pop every queued candidate and append
`a=<candidate>\r\n` to the fragment buffer. -/
def addCands (acc : List Char) : List (List Char) → List Char
  | [] => acc
  | c :: t =>
    addCands (strlcat (strlcat (strlcat acc (chars "a=")) c) (chars "\r\n")) t

/-- The credentials header and fake m-line written by `g_snprintf`
into the 4096-byte fragment buffer (truncated to 4095 characters). -/
def fragHeader (env : FlushEnv) : List Char :=
  (chars "a=ice-ufrag:" ++ env.ice_ufrag ++
   chars "\r\na=ice-pwd:" ++ env.ice_pwd ++
   chars "\r\nm=" ++ (if env.audioPipe then chars "audio" else chars "video") ++
   chars " 9 RTP/AVP 0\r\n").take 4095

/-- The optional `a=mid:` block appended with `g_strlcat`. -/
def fragWithMid (env : FlushEnv) : List Char :=
  match env.first_mid with
  | none => fragHeader env
  | some m =>
    strlcat (strlcat (strlcat (fragHeader env) (chars "a=mid:")) m) (chars "\r\n")

/-- The PATCH fragment assembled by `whip_send_candidates`:
credentials header and fake m-line, optional `a=mid:` block, then
every queued candidate. -/
def buildFragment (env : FlushEnv) : List Char :=
  addCands (fragWithMid env) env.queue

/-- Result of one `whip_send_candidates` invocation: the boolean the
GSource callback returns (`TRUE` keeps the timer alive), the PATCH
body if one was sent, and the queue contents afterwards. -/
structure FlushResult where
  keepGoing : Bool
  patchSent : Option (List Char)
  queueAfter : List (List Char)
deriving DecidableEq, Repr

/-- `whip_send_candidates`: an empty queue returns TRUE with no
request; otherwise the fragment is built (draining the queue), and
if no resource URL exists the batch is discarded with TRUE; otherwise
the PATCH is sent (its status only being logged) and the callback
returns FALSE exactly when the fragment contains
`end-of-candidates`. -/
def whip_send_candidates (env : FlushEnv) (patchStatus : Nat) : FlushResult :=
  if env.queue.isEmpty then ⟨true, none, env.queue⟩
  else
    let frag := buildFragment env
    if env.resource_url.isNone then ⟨true, none, []⟩
    else
      let _ := patchStatus
      ⟨!(strstrB (chars "end-of-candidates") frag), some frag, []⟩

/-- A flush environment whose ICE ufrag alone fills the 4096-byte
fragment buffer: the queued batch holds the end-of-gathering
sentinel, but `g_strlcat` truncation keeps the sentinel text out of
the fragment. -/
def overflowEnv : FlushEnv :=
  ⟨[chars "end-of-candidates"], some (chars "https://host/resource/123"),
   List.replicate 4200 'x', chars "p", none, true⟩

/-- The component number computed by `whip_candidate` (lines
507-511): split the candidate on single spaces; when at least two
parts exist, `atoi` of the second, else 0. -/
def candComponent (cand : List Char) : Int :=
  let parts := gStrsplit ' ' cand
  if 2 ≤ parts.length then atoi ((parts.get? 1).getD []) else 0

/-- What `whip_candidate` does with a discovered candidate. -/
inductive CandidateAction
  | ignored
  | teardown (reason : List Char)
  | dropped
  | enqueued (cand : List Char)
deriving DecidableEq, Repr

/-- `whip_candidate`: ignore when `stop` or `disconnected` is set;
tear the session down when the state is before OFFER_PREPARED; drop
silently for a non-first m-line or a component other than 1;
otherwise enqueue the candidate. -/
def whip_candidate (stopFlag disconnectedFlag : Bool) (st : WhipState)
    (mlineindex : Nat) (cand : List Char) : CandidateAction :=
  if stopFlag || disconnectedFlag then .ignored
  else if st.code < WhipState.OFFER_PREPARED.code then
    .teardown (chars "Can\x27t trickle, not in a PeerConnection")
  else if mlineindex ≠ 0 then .dropped
  else if candComponent cand ≠ 1 then .dropped
  else .enqueued cand

/-- Process-wide teardown state: the atomics `stop` and
`disconnected`, the write-once `resource_url`, a count of DELETE
requests issued, whether the main loop was quit and whether the
process called `exit(1)`. -/
structure ProcState where
  stop : Nat
  disconnected : Bool
  resource_url : Option (List Char)
  deletes : Nat
  loopQuit : Bool
  exited : Bool
deriving DecidableEq, Repr

/-- `whip_disconnect(reason)`: the compare-and-swap on `disconnected`
makes every call after the first a no-op; the winner quits the loop,
issuing one DELETE first when a resource URL exists. -/
def whip_disconnect (reason : List Char) (s : ProcState) : ProcState :=
  let _ := reason
  if s.disconnected then s
  else
    let s1 := { s with disconnected := true }
    match s1.resource_url with
    | none => { s1 with loopQuit := true }
    | some _ => { s1 with deletes := s1.deletes + 1, loopQuit := true }

/-- `whip_handle_signal`: the first signal (winning the
compare-and-swap on `stop`) triggers `whip_disconnect`; later
signals increment `stop` and call `exit(1)` once it exceeds 2. -/
def whip_handle_signal (s : ProcState) : ProcState :=
  if s.stop = 0 then whip_disconnect (chars "Shutting down") { s with stop := 1 }
  else
    let s1 := { s with stop := s.stop + 1 }
    if s1.stop > 2 then { s1 with exited := true } else s1

/-- A teardown-relevant event: an OS signal, a direct
`whip_disconnect` call (protocol failure, EOS, ...), or the one-time
resource-URL write by `whip_connect`. -/
inductive Trigger
  | signal
  | failure (reason : List Char)
  | setResource (u : List Char)
deriving DecidableEq, Repr

/-- Effect of one trigger; a process that already exited does
nothing further. -/
def stepTrigger (s : ProcState) (t : Trigger) : ProcState :=
  if s.exited then s
  else
    match t with
    | .signal => whip_handle_signal s
    | .failure reason => whip_disconnect reason s
    | .setResource u => { s with resource_url := some u }

/-- Run a sequence of triggers (any interleaving of teardown causes,
serialized by the atomicity of the compare-and-swap operations). -/
def runTriggers (s : ProcState) (ts : List Trigger) : ProcState :=
  ts.foldl stepTrigger s

/-- Fresh process state at startup. -/
def initProc : ProcState := ⟨0, false, none, 0, false, false⟩


/-! ### Helper lemmas about the SDP scan -/

theorem parseLines_stopped (ls : List (List Char)) (c : ParseCtx)
    (h : c.done = true ∨ c.success = false) : parseLines ls c = c := by
  cases ls with
  | nil => rfl
  | cons l ls =>
    rcases h with h | h <;> simp [parseLines, h]

theorem parseLines_append (a b : List (List Char)) (c : ParseCtx) :
    parseLines (a ++ b) c = parseLines b (parseLines a c) := by
  induction a generalizing c with
  | nil => rfl
  | cons l a ih =>
    simp only [List.cons_append, parseLines]
    by_cases h : (c.done || !c.success) = true
    · rw [if_pos h, if_pos h, parseLines_stopped]
      rcases Bool.or_eq_true_iff.mp h with h | h
      · exact Or.inl h
      · exact Or.inr (by simpa using h)
    · rw [if_neg h, if_neg h]
      exact ih _

theorem truncAtCr_eq (l : List Char) (h : '\r' ∉ l) : truncAtCr l = l := by
  induction l with
  | nil => rfl
  | cons c t ih =>
    have hc : (c != '\r') = true := by
      simp only [bne_iff_ne, ne_eq]
      intro hh
      exact h (hh ▸ List.mem_cons_self c t)
    have ht : '\r' ∉ t := fun hm => h (List.mem_cons_of_mem c hm)
    simp only [truncAtCr, List.takeWhile_cons, hc, if_true]
    exact congrArg (c :: ·) (ih ht)

theorem splitColon_append (k v : List Char) (hk : ':' ∉ k) :
    splitColon (k ++ ':' :: v) = some (k, v) := by
  induction k with
  | nil => simp [splitColon]
  | cons c t ih =>
    have hc : ¬ (c = ':') := fun h => hk (h ▸ List.mem_cons_self c t)
    have ht : ':' ∉ t := fun hm => hk (List.mem_cons_of_mem c hm)
    simp [splitColon, hc, ih ht]

theorem sessionAttr_first_mid (rest : List Char) (c : ParseCtx) :
    (sessionAttr rest c).st.first_mid = c.st.first_mid := by
  unfold sessionAttr
  split
  · split
    · rfl
    · split
      · rfl
      · split <;> rfl
  · rfl

theorem sessionAttr_flags (rest : List Char) (c : ParseCtx) :
    (sessionAttr rest c).mline = c.mline ∧ (sessionAttr rest c).done = c.done
      ∧ (sessionAttr rest c).success = c.success := by
  unfold sessionAttr
  split
  · split
    · exact ⟨rfl, rfl, rfl⟩
    · split
      · exact ⟨rfl, rfl, rfl⟩
      · split <;> exact ⟨rfl, rfl, rfl⟩
  · exact ⟨rfl, rfl, rfl⟩

theorem mediaAttr_flags (rest : List Char) (c : ParseCtx) :
    (mediaAttr rest c).mline = c.mline ∧ (mediaAttr rest c).done = c.done
      ∧ (mediaAttr rest c).success = c.success := by
  unfold mediaAttr
  split
  · split
    · exact ⟨rfl, rfl, rfl⟩
    · split
      · exact ⟨rfl, rfl, rfl⟩
      · split
        · exact ⟨rfl, rfl, rfl⟩
        · split <;> exact ⟨rfl, rfl, rfl⟩
  · exact ⟨rfl, rfl, rfl⟩

theorem stepTrunc_attr (r : Char) (t : List Char) (c : ParseCtx) :
    stepTrunc ('a' :: '=' :: r :: t) c
      = if c.mline then mediaAttr (r :: t) c else sessionAttr (r :: t) c := by
  have h3 : ¬ (('a' :: '=' :: r :: t).length < 3) := by
    simp only [List.length_cons]
    omega
  simp [stepTrunc, h3]

theorem stepTrunc_m (r : Char) (t : List Char) (c : ParseCtx) :
    stepTrunc ('m' :: '=' :: r :: t) c
      = if c.mline then { c with done := true } else { c with mline := true } := by
  have h3 : ¬ (('m' :: '=' :: r :: t).length < 3) := by
    simp only [List.length_cons]
    omega
  simp [stepTrunc, h3]

theorem sessionAttr_ufrag (v : List Char) (c : ParseCtx) (hv : ¬ v = []) :
    sessionAttr (chars "ice-ufrag:" ++ v) c
      = { c with st := { c.st with ice_ufrag := some v } } := by
  show sessionAttr (chars "ice-ufrag" ++ ':' :: v) c = _
  have hk : strcaseEq (chars "ice-ufrag") (chars "ice-ufrag") = true := by decide
  unfold sessionAttr
  rw [splitColon_append _ _ (by decide)]
  simp [hv, hk]

theorem sessionAttr_pwd (v : List Char) (c : ParseCtx) (hv : ¬ v = []) :
    sessionAttr (chars "ice-pwd:" ++ v) c
      = { c with st := { c.st with ice_pwd := some v } } := by
  show sessionAttr (chars "ice-pwd" ++ ':' :: v) c = _
  have hk1 : strcaseEq (chars "ice-pwd") (chars "ice-ufrag") = false := by decide
  have hk2 : strcaseEq (chars "ice-pwd") (chars "ice-pwd") = true := by decide
  unfold sessionAttr
  rw [splitColon_append _ _ (by decide)]
  simp [hv, hk1, hk2]

theorem mediaAttr_ufrag (v : List Char) (c : ParseCtx) (hv : ¬ v = []) :
    mediaAttr (chars "ice-ufrag:" ++ v) c
      = { c with st := { c.st with ice_ufrag := some v } } := by
  show mediaAttr (chars "ice-ufrag" ++ ':' :: v) c = _
  have hk : strcaseEq (chars "ice-ufrag") (chars "ice-ufrag") = true := by decide
  unfold mediaAttr
  rw [splitColon_append _ _ (by decide)]
  simp [hv, hk]

theorem mediaAttr_pwd (v : List Char) (c : ParseCtx) (hv : ¬ v = []) :
    mediaAttr (chars "ice-pwd:" ++ v) c
      = { c with st := { c.st with ice_pwd := some v } } := by
  show mediaAttr (chars "ice-pwd" ++ ':' :: v) c = _
  have hk1 : strcaseEq (chars "ice-pwd") (chars "ice-ufrag") = false := by decide
  have hk2 : strcaseEq (chars "ice-pwd") (chars "ice-pwd") = true := by decide
  unfold mediaAttr
  rw [splitColon_append _ _ (by decide)]
  simp [hv, hk1, hk2]

theorem mediaAttr_mid (v : List Char) (c : ParseCtx) (hv : ¬ v = []) :
    mediaAttr (chars "mid:" ++ v) c
      = { c with st := { c.st with first_mid := some v } } := by
  show mediaAttr (chars "mid" ++ ':' :: v) c = _
  have hk1 : strcaseEq (chars "mid") (chars "ice-ufrag") = false := by decide
  have hk2 : strcaseEq (chars "mid") (chars "ice-pwd") = false := by decide
  have hk3 : strcaseEq (chars "mid") (chars "mid") = true := by decide
  unfold mediaAttr
  rw [splitColon_append _ _ (by decide)]
  simp [hv, hk1, hk2, hk3]

theorem stepLine_attr (r : Char) (t : List Char) (c : ParseCtx)
    (hr : '\r' ∉ 'a' :: '=' :: r :: t) :
    stepLine ('a' :: '=' :: r :: t) c
      = if c.mline then mediaAttr (r :: t) c else sessionAttr (r :: t) c := by
  unfold stepLine
  rw [truncAtCr_eq _ hr]
  exact stepTrunc_attr r t c

theorem stepLine_m (r : Char) (t : List Char) (c : ParseCtx)
    (hr : '\r' ∉ 'm' :: '=' :: r :: t) :
    stepLine ('m' :: '=' :: r :: t) c
      = if c.mline then { c with done := true } else { c with mline := true } := by
  unfold stepLine
  rw [truncAtCr_eq _ hr]
  exact stepTrunc_m r t c

theorem stepTrunc_session_first_mid (t : List Char) (c : ParseCtx)
    (hm : c.mline = false) :
    (stepTrunc t c).st.first_mid = c.st.first_mid := by
  unfold stepTrunc
  split
  · rfl
  · split
    · rfl
    · split
      · rfl
      · simp only [hm]
        simp only [Bool.false_eq_true, if_false]
        split
        · exact sessionAttr_first_mid _ _
        · rfl
        · rfl

theorem stepTrunc_session_other (t : List Char) (c : ParseCtx)
    (hm : c.mline = false) (h : t.head? ≠ some 'a') :
    (stepTrunc t c).st = c.st := by
  unfold stepTrunc
  split
  · rfl
  · split
    · rfl
    · split
      · rfl
      · simp only [hm]
        simp only [Bool.false_eq_true, if_false]
        split
        · rename_i heq
          exact absurd heq h
        · rfl
        · rfl

theorem stepTrunc_invalid (t : List Char) (c : ParseCtx) (hne : ¬ t.isEmpty = true)
    (hbad : t.length < 3 ∨ ¬ (t.get? 1 = some '=')) :
    stepTrunc t c = { c with success := false } := by
  unfold stepTrunc
  rw [if_neg hne]
  by_cases hl : t.length < 3
  · rw [if_pos hl]
  · rw [if_neg hl]
    rcases hbad with hb | hb
    · exact absurd hb hl
    · rw [if_pos hb]

theorem sessionAttr_success (rest : List Char) (c : ParseCtx) :
    (sessionAttr rest c).success = c.success :=
  (sessionAttr_flags rest c).2.2

theorem mediaAttr_success (rest : List Char) (c : ParseCtx) :
    (mediaAttr rest c).success = c.success :=
  (mediaAttr_flags rest c).2.2

theorem stepTrunc_fail_eq (t : List Char) (c : ParseCtx)
    (hc : c.success = true) (h : (stepTrunc t c).success = false) :
    stepTrunc t c = { c with success := false } := by
  unfold stepTrunc at h ⊢
  split at h
  · rw [hc] at h
    exact absurd h (by simp)
  · split at h
    · simp_all
    · split at h
      · simp_all
      · split at h <;> split at h <;>
          simp_all [sessionAttr_success, mediaAttr_success]

/-! ### Claims C4, C5, C6: the SDP fragment extractor -/

/-- C4 counterexample: on the input `"a=ice-ufrag:x\nZZ"` starting
from empty extraction state, `whip_parse_offer` fails (the line `ZZ`
is shorter than 3 characters) yet the stored `ice_ufrag` global has
already been overwritten with `x`, so a failing extraction does not
leave the stored values unchanged. -/
theorem whip_parse_partial_counterexample :
    (whip_parse_offer ⟨none, none, none⟩ (chars "a=ice-ufrag:x\nZZ")).success = false
  ∧ (whip_parse_offer ⟨none, none, none⟩ (chars "a=ice-ufrag:x\nZZ")).st.ice_ufrag
      = some (chars "x")
  ∧ (some (chars "x") : Option (List Char)) ≠ none := by
  refine ⟨by decide, by decide, by decide⟩

/-- C4 (amended): when a line fails the validity check, the scan
stops there and signals the failure explicitly (the success flag of
the result is false and the lines after the failing one are never
inspected), but the stored values are those accumulated from the
lines before the failing one — a partial result persists. -/
theorem whip_parse_offer_failure_signalled (c0 : ParseCtx)
    (pre : List (List Char)) (bad : List Char) (rest : List (List Char))
    (h1 : (parseLines pre c0).success = true)
    (h2 : (parseLines pre c0).done = false)
    (h3 : (stepLine bad (parseLines pre c0)).success = false) :
    parseLines (pre ++ bad :: rest) c0
      = { parseLines pre c0 with success := false } := by
  rw [parseLines_append]
  have hcond : ((parseLines pre c0).done || !(parseLines pre c0).success) = false := by
    rw [h1, h2]
    rfl
  show parseLines (bad :: rest) (parseLines pre c0) = _
  simp only [parseLines, hcond, Bool.false_eq_true, if_false]
  have hf : stepLine bad (parseLines pre c0)
      = { parseLines pre c0 with success := false } :=
    stepTrunc_fail_eq _ _ h1 h3
  rw [hf, parseLines_stopped]
  exact Or.inr rfl

/-- C4 witness: the amended theorem applied to the counterexample
input, split as one good line, the failing line `ZZ`, and one
further line that is provably never examined. -/
theorem whip_parse_offer_failure_signalled_witness :
    parseLines ([chars "a=ice-ufrag:x"] ++ chars "ZZ" :: [chars "a=ice-pwd:p"])
        ⟨false, false, true, ⟨none, none, none⟩⟩
      = { parseLines [chars "a=ice-ufrag:x"] ⟨false, false, true, ⟨none, none, none⟩⟩
          with success := false } :=
  whip_parse_offer_failure_signalled _ _ _ _ (by decide) (by decide) (by decide)

/-- C6 counterexample: the input `"\n"` contains a line (the empty
line) that is shorter than 3 characters, yet `whip_parse_offer`
succeeds on it — empty lines are skipped, not treated as a fatal
parse error, so the claim as stated is false. -/
theorem whip_parse_short_line_counterexample :
    (∃ l ∈ gStrsplit '\n' (chars "\n"), l.length < 3)
  ∧ (whip_parse_offer ⟨none, none, none⟩ (chars "\n")).success = true := by
  constructor
  · exact ⟨[], by decide, by decide⟩
  · decide

/-- C6 (amended): a line that is still non-empty after truncation at
its first carriage return and is shorter than 3 characters or has a
second character other than '=' aborts the scan with an explicit
failure, provided no earlier line already failed and the extraction
had not already completed at a second media line. (The original
claim is false only for lines that become empty after truncation:
those are skipped.) -/
theorem whip_parse_invalid_line_fails (c0 : ParseCtx)
    (pre : List (List Char)) (bad : List Char) (rest : List (List Char))
    (h1 : (parseLines pre c0).success = true)
    (h2 : (parseLines pre c0).done = false)
    (hne : ¬ (truncAtCr bad).isEmpty = true)
    (hbad : (truncAtCr bad).length < 3 ∨ ¬ ((truncAtCr bad).get? 1 = some '=')) :
    (parseLines (pre ++ bad :: rest) c0).success = false := by
  rw [parseLines_append]
  have hcond : ((parseLines pre c0).done || !(parseLines pre c0).success) = false := by
    rw [h1, h2]
    rfl
  show (parseLines (bad :: rest) (parseLines pre c0)).success = false
  simp only [parseLines, hcond, Bool.false_eq_true, if_false]
  have hf : stepLine bad (parseLines pre c0)
      = { parseLines pre c0 with success := false } :=
    stepTrunc_invalid _ _ hne hbad
  rw [hf, parseLines_stopped]
  exact Or.inr rfl

/-- C6 witness: the amended theorem applied to a two-character line
`ZZ` preceded by a valid line and followed by a line that is never
reached. -/
theorem whip_parse_invalid_line_fails_witness :
    (parseLines ([chars "v=0"] ++ chars "ZZ" :: [chars "a=ice-pwd:p"])
        ⟨false, false, true, ⟨none, none, none⟩⟩).success = false :=
  whip_parse_invalid_line_fails _ _ _ _ (by decide) (by decide) (by decide)
    (Or.inl (by decide))

/-- C5: the extractor handles exactly the first media section. Before
the first `m=` line (session mode) it never writes `first_mid` and a
line not starting with 'a' never changes the stored triple, while
session-level `a=ice-ufrag:`/`a=ice-pwd:` lines are captured; inside
the first media section `a=ice-ufrag:`/`a=ice-pwd:`/`a=mid:` lines
override whatever values are stored; a second `m=` line sets the
`done` flag without touching the triple, and once the scan is done
every remaining line is ignored. -/
theorem whip_parse_offer_first_section :
    (∀ (c0 : ParseCtx) (pre rest : List (List Char)),
        (parseLines pre c0).done = true →
        parseLines (pre ++ rest) c0 = parseLines pre c0)
  ∧ (∀ (l : List Char) (c : ParseCtx), c.mline = false →
        (stepLine l c).st.first_mid = c.st.first_mid)
  ∧ (∀ (l : List Char) (c : ParseCtx), c.mline = false →
        (truncAtCr l).head? ≠ some 'a' → (stepLine l c).st = c.st)
  ∧ (∀ (v : List Char) (c : ParseCtx), c.mline = false → v ≠ [] → '\r' ∉ v →
        stepLine (chars "a=ice-ufrag:" ++ v) c
          = { c with st := { c.st with ice_ufrag := some v } }
        ∧ stepLine (chars "a=ice-pwd:" ++ v) c
          = { c with st := { c.st with ice_pwd := some v } })
  ∧ (∀ (v : List Char) (c : ParseCtx), c.mline = true → v ≠ [] → '\r' ∉ v →
        stepLine (chars "a=ice-ufrag:" ++ v) c
          = { c with st := { c.st with ice_ufrag := some v } }
        ∧ stepLine (chars "a=ice-pwd:" ++ v) c
          = { c with st := { c.st with ice_pwd := some v } }
        ∧ stepLine (chars "a=mid:" ++ v) c
          = { c with st := { c.st with first_mid := some v } })
  ∧ (∀ (r : Char) (t : List Char) (c : ParseCtx), c.mline = true →
        '\r' ∉ ('m' :: '=' :: r :: t) →
        stepLine ('m' :: '=' :: r :: t) c = { c with done := true }) := by
  refine ⟨?_, ?_, ?_, ?_, ?_, ?_⟩
  · intro c0 pre rest hdone
    rw [parseLines_append, parseLines_stopped _ _ (Or.inl hdone)]
  · intro l c hm
    exact stepTrunc_session_first_mid (truncAtCr l) c hm
  · intro l c hm h
    exact stepTrunc_session_other (truncAtCr l) c hm h
  · intro v c hm hv hr
    constructor
    · have hr2 : '\r' ∉ chars "a=ice-ufrag:" ++ v := by
        intro hmem
        rcases List.mem_append.mp hmem with hmem | hmem
        · exact absurd hmem (by decide)
        · exact hr hmem
      show stepLine ('a' :: '=' :: 'i' :: (chars "ce-ufrag:" ++ v)) c = _
      rw [stepLine_attr 'i' (chars "ce-ufrag:" ++ v) c hr2,
        if_neg (by rw [hm]; exact Bool.false_ne_true)]
      exact sessionAttr_ufrag v c hv
    · have hr2 : '\r' ∉ chars "a=ice-pwd:" ++ v := by
        intro hmem
        rcases List.mem_append.mp hmem with hmem | hmem
        · exact absurd hmem (by decide)
        · exact hr hmem
      show stepLine ('a' :: '=' :: 'i' :: (chars "ce-pwd:" ++ v)) c = _
      rw [stepLine_attr 'i' (chars "ce-pwd:" ++ v) c hr2,
        if_neg (by rw [hm]; exact Bool.false_ne_true)]
      exact sessionAttr_pwd v c hv
  · intro v c hm hv hr
    refine ⟨?_, ?_, ?_⟩
    · have hr2 : '\r' ∉ chars "a=ice-ufrag:" ++ v := by
        intro hmem
        rcases List.mem_append.mp hmem with hmem | hmem
        · exact absurd hmem (by decide)
        · exact hr hmem
      show stepLine ('a' :: '=' :: 'i' :: (chars "ce-ufrag:" ++ v)) c = _
      rw [stepLine_attr 'i' (chars "ce-ufrag:" ++ v) c hr2, if_pos hm]
      exact mediaAttr_ufrag v c hv
    · have hr2 : '\r' ∉ chars "a=ice-pwd:" ++ v := by
        intro hmem
        rcases List.mem_append.mp hmem with hmem | hmem
        · exact absurd hmem (by decide)
        · exact hr hmem
      show stepLine ('a' :: '=' :: 'i' :: (chars "ce-pwd:" ++ v)) c = _
      rw [stepLine_attr 'i' (chars "ce-pwd:" ++ v) c hr2, if_pos hm]
      exact mediaAttr_pwd v c hv
    · have hr2 : '\r' ∉ chars "a=mid:" ++ v := by
        intro hmem
        rcases List.mem_append.mp hmem with hmem | hmem
        · exact absurd hmem (by decide)
        · exact hr hmem
      show stepLine ('a' :: '=' :: 'm' :: (chars "id:" ++ v)) c = _
      rw [stepLine_attr 'm' (chars "id:" ++ v) c hr2, if_pos hm]
      exact mediaAttr_mid v c hv
  · intro r t c hm hr
    rw [stepLine_m r t c hr, if_pos hm]

/-- C5 witness: the pieces of the first-section theorem applied to
concrete lines: everything after a second media line is ignored, and
a media-level `a=mid:7` overrides the stored (absent) value. -/
theorem whip_parse_offer_first_section_witness :
    parseLines ([chars "m=audio 9", chars "m=video 9"] ++ [chars "??"])
        ⟨false, false, true, ⟨none, none, none⟩⟩
      = parseLines [chars "m=audio 9", chars "m=video 9"]
        ⟨false, false, true, ⟨none, none, none⟩⟩
  ∧ stepLine (chars "a=mid:" ++ chars "7") ⟨true, false, true, ⟨none, none, none⟩⟩
      = ⟨true, false, true, ⟨none, none, some (chars "7")⟩⟩ := by
  constructor
  · exact whip_parse_offer_first_section.1 _ _ _ (by decide)
  · exact (whip_parse_offer_first_section.2.2.2.2.1 (chars "7")
      ⟨true, false, true, ⟨none, none, none⟩⟩ rfl (by decide) (by decide)).2.2

/-! ### Claims C1, C3: teardown and signal handling -/

/-- Invariant tying the DELETE count to the disconnected flag. -/
def TeardownInv (s : ProcState) : Prop :=
  (s.disconnected = false → s.deletes = 0) ∧ s.deletes ≤ 1

theorem whip_disconnect_inv (r : List Char) (s : ProcState)
    (h : TeardownInv s) : TeardownInv (whip_disconnect r s) := by
  obtain ⟨h0, h1⟩ := h
  obtain ⟨sp, d, ru, del, lq, ex⟩ := s
  cases d with
  | true => exact ⟨h0, h1⟩
  | false =>
    have hz : del = 0 := h0 rfl
    cases ru with
    | none => simp [whip_disconnect, TeardownInv, hz]
    | some u => simp [whip_disconnect, TeardownInv, hz]

theorem whip_handle_signal_inv (s : ProcState) (h : TeardownInv s) :
    TeardownInv (whip_handle_signal s) := by
  obtain ⟨h0, h1⟩ := h
  obtain ⟨sp, d, ru, del, lq, ex⟩ := s
  by_cases hst : sp = 0
  · have hred : whip_handle_signal ⟨sp, d, ru, del, lq, ex⟩
        = whip_disconnect (chars "Shutting down") ⟨1, d, ru, del, lq, ex⟩ := by
      simp [whip_handle_signal, hst]
    rw [hred]
    exact whip_disconnect_inv _ _ ⟨h0, h1⟩
  · by_cases hgt : sp + 1 > 2
    · have hred : whip_handle_signal ⟨sp, d, ru, del, lq, ex⟩
          = ⟨sp + 1, d, ru, del, lq, true⟩ := by
        simp [whip_handle_signal, hst, hgt]
      rw [hred]
      exact ⟨h0, h1⟩
    · have hred : whip_handle_signal ⟨sp, d, ru, del, lq, ex⟩
          = ⟨sp + 1, d, ru, del, lq, ex⟩ := by
        simp [whip_handle_signal, hst, hgt]
      rw [hred]
      exact ⟨h0, h1⟩

theorem stepTrigger_inv (s : ProcState) (t : Trigger)
    (h : TeardownInv s) : TeardownInv (stepTrigger s t) := by
  unfold stepTrigger
  by_cases hex : s.exited = true
  · rw [if_pos hex]
    exact h
  · rw [if_neg hex]
    cases t with
    | signal => exact whip_handle_signal_inv _ h
    | failure r => exact whip_disconnect_inv _ _ h
    | setResource u => exact ⟨h.1, h.2⟩

theorem runTriggers_inv (ts : List Trigger) (s : ProcState)
    (h : TeardownInv s) : TeardownInv (runTriggers s ts) := by
  induction ts generalizing s with
  | nil => exact h
  | cons t ts ih => exact ih _ (stepTrigger_inv s t h)

theorem runTriggers_exited (s : ProcState) (ts : List Trigger)
    (h : s.exited = true) : runTriggers s ts = s := by
  induction ts with
  | nil => rfl
  | cons t ts ih =>
    show runTriggers (stepTrigger s t) ts = s
    rw [show stepTrigger s t = s from by simp [stepTrigger, h]]
    exact ih

theorem runTriggers_append (s : ProcState) (a b : List Trigger) :
    runTriggers s (a ++ b) = runTriggers (runTriggers s a) b :=
  List.foldl_append stepTrigger s a b

/-- C1: across any sequence of teardown triggers — signals, direct
`whip_disconnect` calls, and the resource-URL write, in any
serialization — at most one DELETE request is ever issued, and once
the compare-and-swap on the `disconnected` flag has been won, every
further `whip_disconnect` call is a no-op. -/
theorem whip_delete_at_most_once :
    (∀ ts : List Trigger, (runTriggers initProc ts).deletes ≤ 1)
  ∧ (∀ (r : List Char) (s : ProcState), s.disconnected = true →
      whip_disconnect r s = s) := by
  constructor
  · intro ts
    have h : TeardownInv (runTriggers initProc ts) :=
      runTriggers_inv ts initProc ⟨fun _ => rfl, by decide⟩
    exact h.2
  · intro r s hd
    simp [whip_disconnect, hd]

/-- C1 witness: a failure trigger racing with two signals and a
resource write still produces at most one DELETE, and a
`whip_disconnect` call on an already disconnected state is the
identity. -/
theorem whip_delete_at_most_once_witness :
    (runTriggers initProc
        [.setResource (chars "https://host/resource/123"),
         .failure (chars "ICE failed"), .signal, .signal]).deletes ≤ 1
  ∧ whip_disconnect (chars "Shutting down (EOS)") ⟨1, true, none, 0, true, false⟩
      = ⟨1, true, none, 0, true, false⟩ :=
  ⟨whip_delete_at_most_once.1 _, whip_delete_at_most_once.2 _ _ rfl⟩

/-- C3 counterexample: the second OS signal is tolerated, but the
third one already forces the process exit (`stop` is incremented to
3 and `3 > 2` triggers `exit(1)`), contradicting the claim that the
third signal is tolerated and only the fourth or later exits. -/
theorem whip_signal_third_exits_counterexample :
    (runTriggers initProc [.signal, .signal]).exited = false
  ∧ (runTriggers initProc [.signal, .signal, .signal]).exited = true := by
  refine ⟨by decide, by decide⟩

/-- C3 (amended): the first signal triggers graceful teardown (the
disconnected flag is set and the main loop is quit) without exiting;
the second signal is tolerated without exiting; the third or any
later signal forces immediate process exit. -/
theorem whip_signal_escalation :
    ((runTriggers initProc [.signal]).disconnected = true
      ∧ (runTriggers initProc [.signal]).loopQuit = true
      ∧ (runTriggers initProc [.signal]).exited = false)
  ∧ (runTriggers initProc [.signal, .signal]).exited = false
  ∧ (∀ n, 3 ≤ n →
      (runTriggers initProc (List.replicate n Trigger.signal)).exited = true) := by
  refine ⟨⟨by decide, by decide, by decide⟩, by decide, ?_⟩
  intro n hn
  have hsplit : List.replicate n Trigger.signal
      = List.replicate 3 Trigger.signal ++ List.replicate (n - 3) Trigger.signal := by
    rw [← List.replicate_add]
    congr 1
    omega
  rw [hsplit, runTriggers_append]
  have h3 : (runTriggers initProc (List.replicate 3 Trigger.signal)).exited = true := by
    decide
  rw [runTriggers_exited _ _ h3]
  exact h3

/-- C3 witness: five signals leave the process exited. -/
theorem whip_signal_escalation_witness :
    (runTriggers initProc (List.replicate 5 Trigger.signal)).exited = true :=
  whip_signal_escalation.2.2 5 (by decide)

/-! ### Claim C2: the POST response of the offer -/

/-- C2 counterexample: in the exact scenario of the claim (201,
`application/sdp`, a `v=0` body, `Location: /resource/123`,
`ETag: "abc"`), `whip_connect` stores the resource URL and the ETag
as claimed, but the session state variable is left at
`OFFER_PREPARED`: no assignment to `STARTED` exists in the code, so
the state does not become `Started`. -/
theorem whip_connect_started_counterexample :
    whip_connect ⟨.OFFER_PREPARED, none, none, ⟨none, none, none⟩⟩
        ⟨chars "https", chars "host", chars "/a/b", none⟩
        (chars "v=0\r\na=ice-ufrag:u\r\na=ice-pwd:p\r\nm=audio 9 RTP/AVP 0\r\na=mid:0\r\n")
        ⟨201, some (chars "application/sdp"),
         some (chars "v=0\r\no=- 0 0 IN IP4 0.0.0.0\r\n"),
         some (chars "\x22abc\x22"), some (chars "/resource/123")⟩
      = .ok ⟨.OFFER_PREPARED, some (chars "https://host/resource/123"),
             some (chars "\x22abc\x22"),
             ⟨some (chars "u"), some (chars "p"), some (chars "0")⟩⟩
  ∧ WhipState.OFFER_PREPARED ≠ WhipState.STARTED := by
  refine ⟨by decide, by decide⟩

/-- C2 (amended): for any server origin and any starting state, the
scenario's POST response yields a resource URL equal to the server
origin (scheme and host) joined with `/resource/123` and stores the
ETag header value verbatim as the version token, but the session
state variable is left unchanged (the `STARTED` state is never
entered by the code). -/
theorem whip_connect_scenario (st : WhipState) (sc ho p : List Char)
    (q : Option (List Char)) (e : List Char) :
    whip_connect ⟨st, none, none, ⟨none, none, none⟩⟩ ⟨sc, ho, p, q⟩
        (chars "v=0\r\na=ice-ufrag:u\r\na=ice-pwd:p\r\nm=audio 9 RTP/AVP 0\r\na=mid:0\r\n")
        ⟨201, some (chars "application/sdp"),
         some (chars "v=0\r\no=- 0 0 IN IP4 0.0.0.0\r\n"),
         some e, some (chars "/resource/123")⟩
      = .ok ⟨st, some (sc ++ chars "://" ++ ho ++ chars "/resource/123"),
             some e, ⟨some (chars "u"), some (chars "p"), some (chars "0")⟩⟩ := by
  have hparse : whip_parse_offer ⟨none, none, none⟩
      (sendrecvToSendonly
        (chars "v=0\r\na=ice-ufrag:u\r\na=ice-pwd:p\r\nm=audio 9 RTP/AVP 0\r\na=mid:0\r\n"))
      = ⟨true, false, true, ⟨some (chars "u"), some (chars "p"), some (chars "0")⟩⟩ := by
    decide
  have hct : strcaseEq (chars "application/sdp") (chars "application/sdp") = true := by
    decide
  have hbody : (chars "v=0\r\n").isPrefixOf
      (chars "v=0\r\no=- 0 0 IN IP4 0.0.0.0\r\n") = true := by decide
  have hhttp : strstrB (chars "http") (chars "/resource/123") = false := by decide
  have hhead : (chars "/resource/123").head? = some '/' := rfl
  have hloc : resolveLocation ⟨sc, ho, p, q⟩ (chars "/resource/123")
      = sc ++ chars "://" ++ ho ++ chars "/resource/123" := by
    simp [resolveLocation, urlToString, hhttp, hhead]
  simp only [whip_connect, hparse, hct, hbody, hloc]
  simp

/-! ### Claim C7: redirect resolution in the HTTP transport -/

/-- C7 counterexample: for origin `https://host/a/b` and a Location
value `new/path` that is neither an absolute URL nor an absolute
path, `whip_http_send` sets the location verbatim as the URL path,
producing `https://hostnew/path` — not the last-segment replacement
`https://host/a/new/path` the claim describes. -/
theorem whip_redirect_relative_counterexample :
    resolveRedirect ⟨chars "https", chars "host", chars "/a/b", none⟩
        (chars "new/path")
      = chars "https://hostnew/path"
  ∧ chars "https://hostnew/path" ≠ chars "https://host/a/new/path" := by
  refine ⟨by decide, by decide⟩

/-- C7 (amended): on a redirect, a Location containing "http" is
used as-is (in particular every absolute URL); any other Location
becomes the verbatim path of the origin server URL, the retry URL
being scheme://host followed by the Location value with the query
dropped — so an absolute path `/new/path` against `https://host/a/b`
gives `https://host/new/path`, while a relative value is appended
directly after the host with no last-segment replacement. The
redirect loop of `whip_http_send` retries exactly that URL. -/
theorem whip_redirect_resolution (u : Url) (loc : List Char) :
    (strstrB (chars "http") loc = true → resolveRedirect u loc = loc)
  ∧ (strstrB (chars "http") loc = false →
      resolveRedirect u loc = u.scheme ++ chars "://" ++ u.host ++ loc)
  ∧ (∀ (url : List Char) (rs : List HttpResp),
      whip_http_send u url none 0 (⟨301, some loc⟩ :: ⟨200, none⟩ :: rs)
        = (200, [url, resolveRedirect u loc])) := by
  refine ⟨?_, ?_, ?_⟩
  · intro h
    simp [resolveRedirect, h]
  · intro h
    simp [resolveRedirect, urlToString, h]
  · intro url rs
    simp [whip_http_send]

/-- C7 witness: the three parts at concrete inputs — an absolute
URL kept as-is, an absolute path spliced onto scheme://host, and one
actual redirected send. -/
theorem whip_redirect_resolution_witness :
    resolveRedirect ⟨chars "https", chars "host", chars "/a/b", none⟩
        (chars "http://other/x") = chars "http://other/x"
  ∧ resolveRedirect ⟨chars "https", chars "host", chars "/a/b", none⟩
        (chars "/new/path") = chars "https://host" ++ chars "/new/path"
  ∧ whip_http_send ⟨chars "https", chars "host", chars "/a/b", none⟩
        (chars "https://host/a/b") none 0
        [⟨301, some (chars "/new/path")⟩, ⟨200, none⟩]
      = (200, [chars "https://host/a/b",
               resolveRedirect ⟨chars "https", chars "host", chars "/a/b", none⟩
                 (chars "/new/path")]) := by
  refine ⟨?_, ?_, ?_⟩
  · exact (whip_redirect_resolution _ _).1 (by decide)
  · exact (whip_redirect_resolution _ _).2.1 (by decide)
  · exact (whip_redirect_resolution _ _).2.2 _ _

/-! ### Claims C8, C9: the trickle flush -/

/-- The untruncated text the candidate loop appends. -/
def flatAdd : List (List Char) → List Char
  | [] => []
  | c :: t => chars "a=" ++ c ++ chars "\r\n" ++ flatAdd t

theorem isPrefixOf_append_self (p b : List Char) :
    p.isPrefixOf (p ++ b) = true := by
  induction p with
  | nil => simp [List.isPrefixOf]
  | cons c t ih => simp [List.isPrefixOf, ih]

theorem strstrB_sandwich (x a b : List Char) :
    strstrB x (a ++ (x ++ b)) = true := by
  induction a with
  | nil =>
    rw [List.nil_append]
    cases hx : x ++ b with
    | nil =>
      have hx0 : x = [] := (List.append_eq_nil.mp hx).1
      subst hx0
      simp [strstrB, List.isPrefixOf]
    | cons h t =>
      have hp : x.isPrefixOf (h :: t) = true := by
        rw [← hx]
        exact isPrefixOf_append_self x b
      simp [strstrB, hp]
  | cons c t ih =>
    rw [List.cons_append]
    simp [strstrB, ih]

theorem strstrB_flatAdd (x : List Char) (q : List (List Char)) (acc : List Char)
    (hx : x ∈ q) : strstrB x (acc ++ flatAdd q) = true := by
  induction q generalizing acc with
  | nil => exact absurd hx (List.not_mem_nil x)
  | cons c t ih =>
    rcases List.mem_cons.mp hx with h | h
    · subst h
      show strstrB x (acc ++ (chars "a=" ++ x ++ chars "\r\n" ++ flatAdd t)) = true
      have hassoc : acc ++ (chars "a=" ++ x ++ chars "\r\n" ++ flatAdd t)
          = (acc ++ chars "a=") ++ (x ++ (chars "\r\n" ++ flatAdd t)) := by
        simp [List.append_assoc]
      rw [hassoc]
      exact strstrB_sandwich x _ _
    · have hassoc : acc ++ flatAdd (c :: t)
          = (acc ++ (chars "a=" ++ c ++ chars "\r\n")) ++ flatAdd t := by
        show acc ++ (chars "a=" ++ c ++ chars "\r\n" ++ flatAdd t) = _
        simp [List.append_assoc]
      rw [hassoc]
      exact ih _ h

theorem strlcat_le (d s : List Char) : (strlcat d s).length ≤ 4095 := by
  simp only [strlcat, List.length_take]
  exact min_le_left _ _

theorem strlcat_mono (d s : List Char) (h : d.length ≤ 4095) :
    d.length ≤ (strlcat d s).length := by
  simp only [strlcat, List.length_take, List.length_append]
  omega

theorem strlcat_eq (d s : List Char) (h : (strlcat d s).length < 4095) :
    strlcat d s = d ++ s := by
  simp only [strlcat, List.length_take, List.length_append] at h
  exact List.take_of_length_le (by simp [List.length_append]; omega)

theorem addCands_mono (q : List (List Char)) (acc : List Char)
    (h : acc.length ≤ 4095) : acc.length ≤ (addCands acc q).length := by
  induction q generalizing acc with
  | nil => exact le_refl _
  | cons c t ih =>
    show acc.length
        ≤ (addCands (strlcat (strlcat (strlcat acc (chars "a=")) c) (chars "\r\n")) t).length
    have h1 : acc.length ≤ (strlcat acc (chars "a=")).length := strlcat_mono _ _ h
    have h2 : (strlcat acc (chars "a=")).length
        ≤ (strlcat (strlcat acc (chars "a=")) c).length :=
      strlcat_mono _ _ (strlcat_le _ _)
    have h3 : (strlcat (strlcat acc (chars "a=")) c).length
        ≤ (strlcat (strlcat (strlcat acc (chars "a=")) c) (chars "\r\n")).length :=
      strlcat_mono _ _ (strlcat_le _ _)
    exact le_trans (le_trans (le_trans h1 h2) h3) (ih _ (strlcat_le _ _))

theorem addCands_free (q : List (List Char)) (acc : List Char)
    (hacc : acc.length ≤ 4095) (h : (addCands acc q).length < 4095) :
    addCands acc q = acc ++ flatAdd q := by
  induction q generalizing acc with
  | nil => simp [addCands, flatAdd]
  | cons c t ih =>
    have hstep : addCands acc (c :: t)
        = addCands (strlcat (strlcat (strlcat acc (chars "a=")) c) (chars "\r\n")) t := rfl
    have h' : (addCands (strlcat (strlcat (strlcat acc (chars "a=")) c)
        (chars "\r\n")) t).length < 4095 := by
      rw [← hstep]
      exact h
    have h3lt : (strlcat (strlcat (strlcat acc (chars "a=")) c) (chars "\r\n")).length
        < 4095 := lt_of_le_of_lt (addCands_mono t _ (strlcat_le _ _)) h'
    have h2lt : (strlcat (strlcat acc (chars "a=")) c).length < 4095 :=
      lt_of_le_of_lt (strlcat_mono _ _ (strlcat_le _ _)) h3lt
    have h1lt : (strlcat acc (chars "a=")).length < 4095 :=
      lt_of_le_of_lt (strlcat_mono _ _ (strlcat_le _ _)) h2lt
    calc addCands acc (c :: t)
        = addCands (strlcat (strlcat (strlcat acc (chars "a=")) c) (chars "\r\n")) t :=
          hstep
      _ = strlcat (strlcat (strlcat acc (chars "a=")) c) (chars "\r\n") ++ flatAdd t :=
          ih _ (strlcat_le _ _) h'
      _ = ((acc ++ chars "a=") ++ c ++ chars "\r\n") ++ flatAdd t := by
          rw [strlcat_eq _ _ h3lt, strlcat_eq _ _ h2lt, strlcat_eq _ _ h1lt]
      _ = acc ++ flatAdd (c :: t) := by
          show _ = acc ++ (chars "a=" ++ c ++ chars "\r\n" ++ flatAdd t)
          simp [List.append_assoc]

theorem fragWithMid_le (env : FlushEnv) : (fragWithMid env).length ≤ 4095 := by
  unfold fragWithMid
  cases env.first_mid with
  | none =>
    simp only [fragHeader, List.length_take]
    exact min_le_left _ _
  | some m => exact strlcat_le _ _

theorem isPrefixOf_mem (p l : List Char) (h : p.isPrefixOf l = true) :
    ∀ x ∈ p, x ∈ l := by
  induction p generalizing l with
  | nil =>
    intro x hx
    exact absurd hx (List.not_mem_nil x)
  | cons a as ih =>
    cases l with
    | nil => exact absurd h (by simp [List.isPrefixOf])
    | cons b bs =>
      simp only [List.isPrefixOf, Bool.and_eq_true, beq_iff_eq] at h
      intro x hx
      rcases List.mem_cons.mp hx with hx | hx
      · rw [hx, h.1]
        exact List.mem_cons_self b bs
      · exact List.mem_cons_of_mem b (ih bs h.2 x hx)

theorem strstrB_of_missing (pat hay : List Char) (ch : Char)
    (hp : ch ∈ pat) (hh : ch ∉ hay) : strstrB pat hay = false := by
  induction hay with
  | nil =>
    show pat.isPrefixOf [] = false
    cases pat with
    | nil => exact absurd hp (List.not_mem_nil ch)
    | cons a as => simp [List.isPrefixOf]
  | cons h t ih =>
    show (pat.isPrefixOf (h :: t) || strstrB pat t) = false
    have h1 : pat.isPrefixOf (h :: t) = false := by
      cases hpre : pat.isPrefixOf (h :: t) with
      | false => rfl
      | true => exact absurd (isPrefixOf_mem pat _ hpre ch hp) hh
    have h2 : strstrB pat t = false :=
      ih (fun hm => hh (List.mem_cons_of_mem h hm))
    rw [h1, h2]
    rfl

theorem strlcat_full (d s : List Char) (h : d.length = 4095) :
    strlcat d s = d := by
  simp only [strlcat]
  rw [List.take_append_eq_append_take, h, Nat.sub_self, List.take_zero,
    List.append_nil]
  exact List.take_of_length_le h.le

theorem overflowEnv_header :
    fragHeader overflowEnv = chars "a=ice-ufrag:" ++ List.replicate 4083 'x' := by
  show (chars "a=ice-ufrag:" ++ List.replicate 4200 'x' ++ chars "\r\na=ice-pwd:"
      ++ chars "p" ++ chars "\r\nm=" ++ chars "audio"
      ++ chars " 9 RTP/AVP 0\r\n").take 4095 = _
  have hassoc : chars "a=ice-ufrag:" ++ List.replicate 4200 'x' ++ chars "\r\na=ice-pwd:"
      ++ chars "p" ++ chars "\r\nm=" ++ chars "audio" ++ chars " 9 RTP/AVP 0\r\n"
      = chars "a=ice-ufrag:" ++ (List.replicate 4200 'x' ++ (chars "\r\na=ice-pwd:"
        ++ (chars "p" ++ (chars "\r\nm=" ++ (chars "audio"
        ++ chars " 9 RTP/AVP 0\r\n"))))) := by
    simp only [List.append_assoc]
  rw [hassoc, List.take_append_eq_append_take,
    show (chars "a=ice-ufrag:").length = 12 from rfl,
    show (chars "a=ice-ufrag:").take 4095 = chars "a=ice-ufrag:" from rfl,
    show (4095 - 12 : Nat) = 4083 from rfl,
    List.take_append_eq_append_take, List.length_replicate,
    show (4083 - 4200 : Nat) = 0 from rfl, List.take_zero, List.append_nil,
    List.take_replicate,
    show min 4083 4200 = 4083 from rfl]

theorem overflowEnv_fragment :
    buildFragment overflowEnv = chars "a=ice-ufrag:" ++ List.replicate 4083 'x' := by
  have hlen : (chars "a=ice-ufrag:" ++ List.replicate 4083 'x').length = 4095 := by
    rw [List.length_append, List.length_replicate,
      show (chars "a=ice-ufrag:").length = 12 from rfl]
  show addCands (fragWithMid overflowEnv) [chars "end-of-candidates"] = _
  rw [show fragWithMid overflowEnv = fragHeader overflowEnv from rfl,
    overflowEnv_header]
  show strlcat (strlcat (strlcat (chars "a=ice-ufrag:" ++ List.replicate 4083 'x')
      (chars "a=")) (chars "end-of-candidates")) (chars "\r\n") = _
  rw [strlcat_full _ _ hlen, strlcat_full _ _ hlen, strlcat_full _ _ hlen]

/-- C8 counterexample: with the end-of-gathering sentinel in the
drained batch and a resource URL present, but an assembled fragment
that fills the 4096-byte buffer (here, via a 4200-character ICE
ufrag), the `g_strlcat` truncation keeps the text
`end-of-candidates` out of the fragment, `strstr` does not find it,
and the flush callback returns TRUE — the timer keeps running even
though the batch contained the sentinel, so the unqualified claim
is false. -/
theorem whip_send_candidates_overflow_counterexample :
    chars "end-of-candidates" ∈ overflowEnv.queue
  ∧ overflowEnv.resource_url.isSome = true
  ∧ (whip_send_candidates overflowEnv 200).keepGoing = true := by
  refine ⟨List.mem_cons_self _ _, rfl, ?_⟩
  have hnotmem : ('n' : Char) ∉ chars "a=ice-ufrag:" ++ List.replicate 4083 'x' := by
    intro hm
    rcases List.mem_append.mp hm with hm | hm
    · exact absurd hm (by decide)
    · rw [List.mem_replicate] at hm
      exact absurd hm.2 (by decide)
  have hq : overflowEnv.queue.isEmpty = false := rfl
  have hr : overflowEnv.resource_url.isNone = false := rfl
  have hs : strstrB (chars "end-of-candidates") (buildFragment overflowEnv) = false := by
    rw [overflowEnv_fragment]
    exact strstrB_of_missing _ _ 'n' (by decide) hnotmem
  simp only [whip_send_candidates, hq, hr, Bool.false_eq_true, if_false, hs]
  rfl

/-- C8 (amended): an empty candidate queue makes the flush callback
return TRUE (keep the timer) with no PATCH sent and the queue
untouched; and whenever a resource URL exists, the drained batch
contains the `end-of-candidates` sentinel, and the assembled
fragment fits the 4096-byte buffer (so the sentinel text survives
the `g_strlcat` truncation), the callback returns FALSE (cancelling
the timer) independently of the HTTP status of the PATCH. When the
fragment overflows the buffer the sentinel can be truncated away and
the callback keeps the timer running instead. -/
theorem whip_send_candidates_spec :
    (∀ (env : FlushEnv) (st : Nat), env.queue = [] →
        whip_send_candidates env st = ⟨true, none, []⟩)
  ∧ (∀ (env : FlushEnv) (st : Nat), env.resource_url.isSome = true →
        chars "end-of-candidates" ∈ env.queue →
        (buildFragment env).length < 4095 →
        (whip_send_candidates env st).keepGoing = false) := by
  constructor
  · intro env st hq
    simp [whip_send_candidates, hq]
  · intro env st hres hmem hlen
    have hne : env.queue.isEmpty = false := by
      cases hq : env.queue with
      | nil =>
        rw [hq] at hmem
        exact absurd hmem (List.not_mem_nil _)
      | cons c t => rfl
    have hnone : env.resource_url.isNone = false := by
      cases hr : env.resource_url with
      | none =>
        rw [hr] at hres
        exact absurd hres (by simp)
      | some u => rfl
    have hfree : buildFragment env = fragWithMid env ++ flatAdd env.queue :=
      addCands_free _ _ (fragWithMid_le env) hlen
    have hsub : strstrB (chars "end-of-candidates") (buildFragment env) = true := by
      rw [hfree]
      exact strstrB_flatAdd _ _ _ hmem
    simp [whip_send_candidates, hne, hnone, hsub]

set_option maxRecDepth 4000 in
/-- C8 witness: an empty queue keeps the timer going with no PATCH;
a queue holding two candidates and the sentinel, with a resource URL
present, makes the callback return FALSE for an HTTP 200 just as for
a failing HTTP 500. -/
theorem whip_send_candidates_spec_witness :
    whip_send_candidates
        ⟨[], some (chars "https://host/resource/123"), chars "u", chars "p",
         some (chars "0"), true⟩ 200
      = ⟨true, none, []⟩
  ∧ (whip_send_candidates
        ⟨[chars "candidate:1 1 UDP 2015363327 10.0.0.1 40000 typ host",
          chars "candidate:2 1 TCP 1015021823 10.0.0.1 9 typ host tcptype active",
          chars "end-of-candidates"],
         some (chars "https://host/resource/123"), chars "u", chars "p",
         some (chars "0"), true⟩ 200).keepGoing = false
  ∧ (whip_send_candidates
        ⟨[chars "candidate:1 1 UDP 2015363327 10.0.0.1 40000 typ host",
          chars "candidate:2 1 TCP 1015021823 10.0.0.1 9 typ host tcptype active",
          chars "end-of-candidates"],
         some (chars "https://host/resource/123"), chars "u", chars "p",
         some (chars "0"), true⟩ 500).keepGoing = false := by
  refine ⟨whip_send_candidates_spec.1 _ 200 rfl, ?_, ?_⟩
  · exact whip_send_candidates_spec.2 _ 200 rfl (by decide) (by decide)
  · exact whip_send_candidates_spec.2 _ 500 rfl (by decide) (by decide)

/-- C9: when the flush runs with a non-empty queue but no resource
URL, the whole batch (sentinel included) is drained and discarded:
no PATCH is sent, the queue is left empty, and the callback returns
TRUE (keep going) even though the batch may have contained the
sentinel. -/
theorem whip_send_candidates_no_resource (env : FlushEnv) (st : Nat)
    (hq : env.queue ≠ []) (hr : env.resource_url = none) :
    whip_send_candidates env st = ⟨true, none, []⟩ := by
  have hne : env.queue.isEmpty = false := by
    cases hqq : env.queue with
    | nil => exact absurd hqq hq
    | cons c t => rfl
  simp [whip_send_candidates, hne, hr]

/-- C9 witness: a queue holding one candidate and the sentinel, with
no resource URL, is discarded with no PATCH and the keep-going
result. -/
theorem whip_send_candidates_no_resource_witness :
    whip_send_candidates
        ⟨[chars "candidate:1 1 UDP 2015363327 10.0.0.1 40000 typ host",
          chars "end-of-candidates"], none, chars "u", chars "p", none, false⟩ 200
      = ⟨true, none, []⟩ :=
  whip_send_candidates_no_resource _ 200 (by decide) rfl

/-! ### Claim C10: the candidate-discovered callback -/

/-- C10: with neither the stop nor the disconnected flag set, a
candidate arriving while the session state is earlier than
OFFER_PREPARED triggers full teardown with the reason string from
the code; in a state at or past OFFER_PREPARED, a candidate for a
non-first media line or whose transport component is not 1 is
silently dropped without being enqueued and without teardown. -/
theorem whip_candidate_guard (st : WhipState) (ml : Nat) (cand : List Char) :
    (st.code < WhipState.OFFER_PREPARED.code →
      whip_candidate false false st ml cand
        = .teardown (chars "Can\x27t trickle, not in a PeerConnection"))
  ∧ (¬ st.code < WhipState.OFFER_PREPARED.code → ml ≠ 0 →
      whip_candidate false false st ml cand = .dropped)
  ∧ (¬ st.code < WhipState.OFFER_PREPARED.code → ml = 0 → candComponent cand ≠ 1 →
      whip_candidate false false st ml cand = .dropped) := by
  refine ⟨?_, ?_, ?_⟩
  · intro h
    simp [whip_candidate, h]
  · intro h hml
    simp [whip_candidate, h, hml]
  · intro h hml hc
    simp [whip_candidate, h, hml, hc]

/-- C10 witness: in state CONNECTING a first-media-line candidate
triggers teardown with the exact reason string; in a late enough
state, a candidate for media line 1 is dropped, and so is a
component-2 candidate for media line 0. -/
theorem whip_candidate_guard_witness :
    whip_candidate false false .CONNECTING 0
        (chars "candidate:1 1 UDP 2015363327 10.0.0.1 40000 typ host")
      = .teardown (chars "Can\x27t trickle, not in a PeerConnection")
  ∧ whip_candidate false false .OFFER_PREPARED 1
        (chars "candidate:1 1 UDP 2015363327 10.0.0.1 40000 typ host")
      = .dropped
  ∧ whip_candidate false false .OFFER_PREPARED 0
        (chars "candidate:2 2 TCP 1015021823 10.0.0.1 9 typ host")
      = .dropped := by
  refine ⟨?_, ?_, ?_⟩
  · exact (whip_candidate_guard _ _ _).1 (by decide)
  · exact (whip_candidate_guard _ _ _).2.1 (by decide) (by decide)
  · exact (whip_candidate_guard _ _ _).2.2 (by decide) rfl (by decide)
